import Mathlib

/-!
# Verification of the L1_Position_Algorithm positioning pipeline

A shallow embedding, in Lean 4, of the core routines of the GPS L1
positioning engine: pseudorange recomposition and ephemeris selection
(`df_parser.c`, `satellites.c`), unique-epoch collection and the
least-squares receiver solver (`receiver_position.c`), the geodetic
conversion (`ecef_to_latlong.c`), and the Kepler solver
(`satellite_position_eci.c`).

C `double` values are modelled as exact numbers: `ℚ` where the code only
adds, multiplies, divides and compares decimal constants, and `ℝ` where
the code calls `sqrt`, `sin`, `cos` or `atan2`.  C `uint32_t` time fields
are modelled as `ℕ`.  Fixed-size per-PRN arrays with a separate element
count are modelled as lists; output arrays indexed by epoch are modelled
as functions `ℕ → ℝ` updated pointwise.
-/

namespace L1Pos

/-! ## Pseudorange recomposition (`df_parser.c`, `compute_pseudorange`) -/

/-- Speed of light in m/s (`SPEED_OF_LIGHT` in `geo_utils.h`). -/
def SPEED_OF_LIGHT : ℚ := 299792458

/-- Embedding of `compute_pseudorange` (`df_parser.c`):
`SPEED_OF_LIGHT * (integer_ms * 1e-3) + mod1s_sec + fine_sec`. -/
def compute_pseudorange (integer_ms : ℕ) (mod1s_sec fine_sec : ℚ) : ℚ :=
  SPEED_OF_LIGHT * ((integer_ms : ℚ) * (1 / 1000)) + mod1s_sec + fine_sec

/-! ## Ephemeris records and best-ephemeris selection (`satellites.c`) -/

/-- The fields of `rtcm_1019_ephemeris_t` used by the series builder:
the six Keplerian elements (doubles, modelled as `ℚ`) and the time of
ephemeris `gps_toe` (`uint32_t`, seconds of GPS week, modelled as `ℕ`). -/
structure Eph where
  eccentricity : ℚ
  inclination : ℚ
  mean_anomaly : ℚ
  semi_major_axis : ℚ
  right_ascension_of_ascending_node : ℚ
  argument_of_periapsis : ℚ
  gps_toe : ℕ
deriving DecidableEq, Repr

instance : Inhabited Eph := ⟨⟨0, 0, 0, 0, 0, 0, 0⟩⟩

/-- Loop body of `find_closest_eph_idx` (`satellites.c` lines 20-34).
State: current index `i`, best index so far (`int best_idx = -1` becomes
`Option ℕ`), and best TOE so far (`uint32_t best_toe = 0`).  The C
update condition is `toe <= pseudorange_time && toe >= best_toe`. -/
def find_closest_loop (t : ℕ) : List Eph → ℕ → Option ℕ → ℕ → Option ℕ × ℕ
  | [], _, bIdx, bToe => (bIdx, bToe)
  | e :: rest, i, bIdx, bToe =>
    if e.gps_toe ≤ t ∧ bToe ≤ e.gps_toe then
      find_closest_loop t rest (i + 1) (some i) e.gps_toe
    else
      find_closest_loop t rest (i + 1) bIdx bToe

/-- Embedding of `find_closest_eph_idx` (`satellites.c`): scan the whole
ephemeris history of one PRN and return the index of the ephemeris kept
by the running `best_toe` filter, with `t` the raw second argument
`pseudorange_time` (the caller passes the stored observation time
unchanged). -/
def find_closest_eph_idx (hist : List Eph) (t : ℕ) : Option ℕ :=
  (find_closest_loop t hist 0 none 0).1

/-! ## Satellite series builder (`satellites.c`, `sort_satellites`) -/

/-- The part of an `rtcm_1074_msm4_t` record read by the series builder:
the parallel arrays `prn[j]` / `pseudorange[j]` (as a list of pairs) and
`time_of_pseudorange` (DF004, `uint32_t` milliseconds of week). -/
structure Msm4Rec where
  sats : List (ℕ × ℚ)
  time_of_pseudorange : ℕ
deriving DecidableEq, Repr

/-- Inner scan of `sort_satellites` (lines 155-157): find the first `j`
with `prn[j] == prn` and return `pseudorange[j]`. -/
def findPrn (sats : List (ℕ × ℚ)) (prn : ℕ) : Option ℚ :=
  match sats with
  | [] => none
  | (p, pr) :: rest => if p = prn then some pr else findPrn rest prn

/-- One row of `gps_satellite_data_t`: the values written at a single
index of the parallel series arrays. -/
structure SeriesEntry where
  pseudorange : ℚ
  time_of_pseudorange : ℕ
  eccentricity : ℚ
  inclination : ℚ
  mean_anomaly : ℚ
  semi_major_axis : ℚ
  right_ascension_of_ascending_node : ℚ
  argument_of_periapsis : ℚ
  times_of_ephemeris : ℕ
deriving DecidableEq, Repr

/-- The all-zero series row (`memset(gps_list, 0, ...)` and the explicit
zeroing branches of `sort_satellites`). -/
def zeroEntry : SeriesEntry :=
  ⟨0, 0, 0, 0, 0, 0, 0, 0, 0⟩

/-- Per-observation body of the `observation_type == 4` branch of
`sort_satellites` (`satellites.c` lines 151-202): look the PRN up in the
MSM4 record; when found, store its pseudorange and raw observation time
and copy the Keplerian elements of the ephemeris selected by
`find_closest_eph_idx` on the raw (millisecond) observation time; when
the PRN is absent or no ephemeris qualifies, leave zeros. -/
def sort_entry (hist : List Eph) (prn : ℕ) (rec : Msm4Rec) : SeriesEntry :=
  match findPrn rec.sats prn with
  | none => zeroEntry
  | some pr =>
    match find_closest_eph_idx hist rec.time_of_pseudorange with
    | none =>
      { zeroEntry with
        pseudorange := pr
        time_of_pseudorange := rec.time_of_pseudorange }
    | some i =>
      let e := hist.getD i default
      { pseudorange := pr
        time_of_pseudorange := rec.time_of_pseudorange
        eccentricity := e.eccentricity
        inclination := e.inclination
        mean_anomaly := e.mean_anomaly
        semi_major_axis := e.semi_major_axis
        right_ascension_of_ascending_node := e.right_ascension_of_ascending_node
        argument_of_periapsis := e.argument_of_periapsis
        times_of_ephemeris := e.gps_toe }

/-- Tail of the unique-by-TOE filter of
`populate_ephemeris_series_from_history` (`satellites.c` lines 52-74):
keep an entry whenever its TOE differs from the last kept TOE. -/
def uniqueByToeAux (last : ℕ) : List Eph → List Eph
  | [] => []
  | e :: rest =>
    if e.gps_toe ≠ last then e :: uniqueByToeAux e.gps_toe rest
    else uniqueByToeAux last rest

/-- Unique-by-TOE ephemeris list (`populate_ephemeris_series_from_history`):
the first entry is always accepted (`i == 0 || toe != last_toe`). -/
def uniqueByToe : List Eph → List Eph
  | [] => []
  | e :: rest => e :: uniqueByToeAux e.gps_toe rest

/-- Final state of one PRN's series row `k` after `sort_satellites`
returns: the per-observation pass fills `pseudoranges[k]` and
`times_of_pseudorange[k]` (and element columns), then
`populate_ephemeris_series_from_history` re-zeroes every element column
and overwrites position `k` with the `k`-th unique-by-TOE history entry
(zeros past the end of that list). -/
def sort_satellites_final_entry (hist : List Eph) (prn : ℕ)
    (recs : List Msm4Rec) (k : ℕ) : SeriesEntry :=
  let obs := ((recs.map (sort_entry hist prn)).getD k zeroEntry)
  let ephs := uniqueByToe hist
  if hk : k < ephs.length then
    let e := ephs.get ⟨k, hk⟩
    { pseudorange := obs.pseudorange
      time_of_pseudorange := obs.time_of_pseudorange
      eccentricity := e.eccentricity
      inclination := e.inclination
      mean_anomaly := e.mean_anomaly
      semi_major_axis := e.semi_major_axis
      right_ascension_of_ascending_node := e.right_ascension_of_ascending_node
      argument_of_periapsis := e.argument_of_periapsis
      times_of_ephemeris := e.gps_toe }
  else
    { zeroEntry with
      pseudorange := obs.pseudorange
      time_of_pseudorange := obs.time_of_pseudorange }

/-- Observation-time normalization described by the specification (section
4.5 step 1, referenced from section 4.4): a time above 604800 is taken as
milliseconds of week and divided by 1000 to give seconds of week.  The
series builder in `satellites.c` does NOT apply this normalization; the
definition exists to state the specification's claimed invariant. -/
def spec_t_obs_seconds (t : ℕ) : ℕ :=
  if t > 604800 then t / 1000 else t

/-! ## Unique epoch collection (`receiver_position.c`,
`collect_unique_pr_times_ms`) -/

/-- Hard cap on the raw epoch working set (`MAX_UNIQUE_EPOCHS` in
`receiver.h`). -/
def MAX_UNIQUE_EPOCHS : ℕ := 100000

/-- Inner loop of `collect_unique_pr_times_ms` over one PRN's
`times_of_pseudorange` prefix: skip zero times, and stop appending once
the accumulator holds `cap` entries (the `goto SORT_AND_DEDUP`). -/
def collectRowAux (cap : ℕ) : List ℕ → List ℕ → List ℕ
  | [], acc => acc
  | t :: ts, acc =>
    if t = 0 then collectRowAux cap ts acc
    else if cap ≤ acc.length then acc
    else collectRowAux cap ts (acc ++ [t])

/-- Outer loop of `collect_unique_pr_times_ms` over the PRNs in index
order.  Once the accumulator is full every later append is skipped, so
continuing the outer scan is equivalent to the C `goto` out of both
loops. -/
def collectRawAux (cap : ℕ) : List (List ℕ) → List ℕ → List ℕ
  | [], acc => acc
  | l :: ls, acc => collectRawAux cap ls (collectRowAux cap l acc)

/-- Tail of the in-place adjacent deduplication of
`collect_unique_pr_times_ms`: keep `a[i]` iff it differs from the last
kept value `a[w-1]`. -/
def dedupAdjAux (prev : ℕ) : List ℕ → List ℕ
  | [] => []
  | t :: ts => if t ≠ prev then t :: dedupAdjAux t ts else dedupAdjAux prev ts

/-- Adjacent deduplication (`w = 1` keeps the first element). -/
def dedupAdj : List ℕ → List ℕ
  | [] => []
  | t :: ts => t :: dedupAdjAux t ts

/-- Embedding of `collect_unique_pr_times_ms` (`receiver_position.c`
lines 58-90): gather the nonzero observation times PRN-major with the
`MAX_UNIQUE_EPOCHS` cap, sort ascending (the `qsort` on `cmp_u32`,
modelled by insertion sort, which computes the same ascending
rearrangement on a total order), then deduplicate adjacent entries.
An empty raw set returns the empty list. -/
def collect_unique_pr_times_ms (glist : List (List ℕ)) : List ℕ :=
  let raw := collectRawAux MAX_UNIQUE_EPOCHS glist []
  if raw = [] then [] else dedupAdj (List.insertionSort (· ≤ ·) raw)

/-- The epoch list claimed by the specification (section 4.7):
`sorted(unique(all nonzero observation times))`, with no truncation
behaviour.  This definition follows the specification's words, for
comparison with `collect_unique_pr_times_ms`. -/
def claim_epoch_list (glist : List (List ℕ)) : List ℕ :=
  List.insertionSort (· ≤ ·) ((glist.flatten.filter (fun t => t ≠ 0)).dedup)

/-! ## Observation-type discipline (`df_parser.c` line 28,
`rtcm_reader.c`, `satellites.c` lines 204-209) -/

/-- Message-type families distinguished by the reader's `DF002`
dispatch. -/
inductive RtcmMsgKind where
  | msg1019 : RtcmMsgKind
  | msg1002 : RtcmMsgKind
  | msg1074 : RtcmMsgKind
  | unsupported : RtcmMsgKind
deriving DecidableEq, Repr

/-- An observation message is a 1002 (legacy) or 1074 (MSM4). -/
def isObsMsg : RtcmMsgKind → Bool
  | .msg1002 => true
  | .msg1074 => true
  | _ => false

/-- Modelled from the spec: the update of the process-wide scalar
`observation_type` when one message is decoded.  The setter is not among
the provided sources (`df_parser.c` only declares
`uint8_t observation_type = 0;` and the provided `rtcm_reader.c` never
writes it); the specification (section 4.3) says the first observation
message fixes the family to 1 or 4 and a later message of the other
family raises a fatal mixed-stream error, here `none`.  Non-observation
messages leave the scalar unchanged. -/
def observation_type_step (ot : ℕ) (m : RtcmMsgKind) : Option ℕ :=
  match m with
  | .msg1002 => if ot = 0 ∨ ot = 1 then some 1 else none
  | .msg1074 => if ot = 0 ∨ ot = 4 then some 4 else none
  | _ => some ot

/-- Modelled from the spec: the reader loop threading `observation_type`
through a whole message stream, aborting on a mixed stream. -/
def read_next_rtcm_message : List RtcmMsgKind → ℕ → Option ℕ
  | [], ot => some ot
  | m :: ms, ot =>
    match observation_type_step ot m with
    | none => none
    | some ot2 => read_next_rtcm_message ms ot2

/-- The dispatch of `sort_satellites` (`satellites.c` lines 83, 144,
204-209): the series builder accepts `observation_type` 1 or 4 and
errors otherwise. -/
def sort_satellites_accepts (ot : ℕ) : Bool :=
  if ot = 1 then true else if ot = 4 then true else false

/-! ## Receiver least-squares solver (`receiver_position.c`) -/

noncomputable section

/-- Three doubles, as in `double v[3]`. -/
abbrev Vec3 := ℝ × ℝ × ℝ

/-- One row of the geometry matrix `G[i][0..3]`. -/
abbrev Row4 := ℝ × ℝ × ℝ × ℝ

/-- Per-satellite data gathered for one epoch: `ecefs[i]` and
`pseudoranges[i]`. -/
structure SatMeas where
  ecef : Vec3
  pr : ℝ

/-- Embedding of `norm3` (`receiver_position.c` lines 92-95). -/
def norm3 (v : Vec3) : ℝ :=
  Real.sqrt (v.1 * v.1 + v.2.1 * v.2.1 + v.2.2 * v.2.2)

/-- The guarded line-of-sight range of one iteration (lines 305-311):
`r = norm3(sat - pos)`, replaced by `1.0` when not strictly positive.
The C guard also replaces a non-finite `r`; real numbers are always
finite, so only the sign test remains. -/
def assumed_range (sat pos : Vec3) : ℝ :=
  let r := norm3 (sat.1 - pos.1, sat.2.1 - pos.2.1, sat.2.2 - pos.2.2)
  if r > 0 then r else 1

/-- One geometry-matrix row (lines 313-329): the negated unit vector
`los / r` with the guarded `r`, and trailing 1. -/
def geometry_row (sat pos : Vec3) : Row4 :=
  let los : Vec3 := (sat.1 - pos.1, sat.2.1 - pos.2.1, sat.2.2 - pos.2.2)
  let r := assumed_range sat pos
  (-(los.1 / r), -(los.2.1 / r), -(los.2.2 / r), 1)

/-- The residual `delta_tau[i] = pr[i] - r - clock_bias` (line 318). -/
def delta_tau_of (pos : Vec3) (clock : ℝ) (s : SatMeas) : ℝ :=
  s.pr - assumed_range s.ecef pos - clock

/-- Component access for a geometry row, `i` in 0..3. -/
def rowComp (g : Row4) (i : ℕ) : ℝ :=
  if i = 0 then g.1 else if i = 1 then g.2.1 else if i = 2 then g.2.2.1 else g.2.2.2

/-- Entry access on a row-list matrix, zero outside. -/
def matGet (m : List (List ℝ)) (r c : ℕ) : ℝ :=
  (m.getD r []).getD c 0

/-- The normal matrix `ATA = Gᵀ·G` of `pinv_normal_eq_apply`
(lines 163-171). -/
def buildATA (G : List Row4) : List (List ℝ) :=
  [0, 1, 2, 3].map (fun r =>
    [0, 1, 2, 3].map (fun c => (G.map (fun g => rowComp g r * rowComp g c)).sum))

/-- The vector `ATy = Gᵀ·y` (lines 173-180). -/
def buildATy (G : List Row4) (y : List ℝ) : List ℝ :=
  [0, 1, 2, 3].map (fun r => ((G.zip y).map (fun p => rowComp p.1 r * p.2)).sum)

/-- Row `r` of the 4×4 identity appended to the augmented matrix
(`invert_4x4` lines 101-107). -/
def idRow4 (r : ℕ) : List ℝ :=
  [if r = 0 then 1 else 0, if r = 1 then 1 else 0,
   if r = 2 then 1 else 0, if r = 3 then 1 else 0]

/-- Build the 4×8 augmented matrix `[A | I]`. -/
def augmentRows (A : List (List ℝ)) : List (List ℝ) :=
  [0, 1, 2, 3].map (fun r => A.getD r [] ++ idRow4 r)

/-- Partial-pivot search of `invert_4x4` (lines 110-120): start from the
diagonal entry and keep the first row strictly improving the maximal
absolute value, scanning rows below `col`. -/
def pivotSearch (aug : List (List ℝ)) (col : ℕ) : ℕ × ℝ :=
  ([0, 1, 2, 3].filter (fun r => col < r)).foldl
    (fun st r =>
      let v := |matGet aug r col|
      if v > st.2 then (r, v) else st)
    (col, |matGet aug col col|)

/-- Row swap (lines 123-131). -/
def swapRows (m : List (List ℝ)) (i j : ℕ) : List (List ℝ) :=
  let ri := m.getD i []
  let rj := m.getD j []
  (m.set i rj).set j ri

/-- Pivot-row normalization (lines 132-134). -/
def scaleRow (m : List (List ℝ)) (i : ℕ) (s : ℝ) : List (List ℝ) :=
  m.set i ((m.getD i []).map (fun x => x * s))

/-- Elimination of column `col` from every other row (lines 135-143);
rows with a zero factor are skipped as in the C. -/
def elimOthers (m : List (List ℝ)) (col : ℕ) : List (List ℝ) :=
  [0, 1, 2, 3].foldl
    (fun acc r =>
      if r = col then acc
      else
        let f := matGet acc r col
        if f ≠ 0 then
          acc.set r (List.zipWith (fun a b => a - f * b) (acc.getD r []) (acc.getD col []))
        else acc)
    m

/-- Column sweep of `invert_4x4` (lines 108-144): for each column,
search the pivot; a maximal absolute value at most `1e-18` makes the
matrix singular (`return 0` in C, `none` here); otherwise swap when
needed, normalize the pivot row by `1 / aug[col][col]`, and eliminate
the other rows. -/
def gjElim : List ℕ → List (List ℝ) → Option (List (List ℝ))
  | [], aug => some aug
  | col :: cols, aug =>
    let pv := pivotSearch aug col
    if pv.2 ≤ 1e-18 then none
    else
      let aug1 := if pv.1 ≠ col then swapRows aug col pv.1 else aug
      let invpiv := 1 / matGet aug1 col col
      let aug2 := scaleRow aug1 col invpiv
      gjElim cols (elimOthers aug2 col)

/-- Embedding of `invert_4x4` (`receiver_position.c` lines 98-149). -/
def invert_4x4 (A : List (List ℝ)) : Option (List (List ℝ)) :=
  (gjElim [0, 1, 2, 3] (augmentRows A)).map (fun aug => aug.map (fun row => row.drop 4))

/-- Embedding of `pinv_normal_eq_apply` (lines 152-194): solve
`(GᵀG)·δ = Gᵀy` through the dense 4×4 inverse; `none` signals the
singular case. -/
def pinv_normal_eq_apply (G : List Row4) (y : List ℝ) : Option (List ℝ) :=
  match invert_4x4 (buildATA G) with
  | none => none
  | some inv =>
    some ([0, 1, 2, 3].map (fun r =>
      (List.zipWith (fun a b => a * b) (inv.getD r []) (buildATy G y)).sum))

/-- The per-epoch Gauss-Newton loop (lines 297-351): build the geometry
matrix and residuals at the current state, solve the normal equations,
and apply the increment; a singular solve aborts the epoch (`n_svs = 0;
break;` in C, modelled by `none`). -/
def lsq_iterate (sats : List SatMeas) : ℕ → Vec3 × ℝ → Option (Vec3 × ℝ)
  | 0, st => some st
  | n + 1, (pos, clock) =>
    let G := sats.map (fun s => geometry_row s.ecef pos)
    let y := sats.map (delta_tau_of pos clock)
    match pinv_normal_eq_apply G y with
    | none => none
    | some d =>
      lsq_iterate sats n
        ((pos.1 + d.getD 0 0, pos.2.1 + d.getD 1 0, pos.2.2 + d.getD 2 0),
          clock + d.getD 3 0)

/-- The iteration budget (`#define ITERATIONS 10`). -/
def ITERATIONS : ℕ := 10

/-- Full least-squares solve of one epoch from the initial guess
`(0,0,0)` and zero clock bias. -/
def solve_epoch (sats : List SatMeas) : Option (Vec3 × ℝ) :=
  lsq_iterate sats ITERATIONS ((0, 0, 0), 0)

/-! ## Geodetic conversion (`ecef_to_latlong.c`, `ecef_to_geodetic`) -/

/-- Two-argument arctangent with the C library convention used by the
source: `atan2(y, x)` with `atan2(0, 0) = 0`, `atan2(y, 0) = ±π/2` by
the sign of `y`. -/
def atan2 (y x : ℝ) : ℝ :=
  if 0 < x then Real.arctan (y / x)
  else if x < 0 then
    if 0 ≤ y then Real.arctan (y / x) + Real.pi else Real.arctan (y / x) - Real.pi
  else
    if 0 < y then Real.pi / 2 else if y < 0 then -(Real.pi / 2) else 0

/-- Embedding of `ecef_to_geodetic` (`ecef_to_latlong.c` lines 25-73):
WGS-84 constants, longitude by `atan2`, the origin guard, Bowring's
latitude formula, and the altitude `p / cos(lat) - N`.  Returns
(latitude in degrees, longitude in degrees, altitude in meters). -/
def ecef_to_geodetic (x y z : ℝ) : ℝ × ℝ × ℝ :=
  let a : ℝ := 6378137
  let f : ℝ := 1 / 298.257223563
  let b : ℝ := a * (1 - f)
  let e2 : ℝ := 2 * f - f * f
  let ep2 : ℝ := (a * a - b * b) / (b * b)
  let rad2deg : ℝ := 180 / Real.pi
  let lon := atan2 y x
  let p := Real.sqrt (x * x + y * y)
  if p = 0 ∧ z = 0 then (0, 0, -a)
  else
    let θ := atan2 (z * a) (p * b)
    let st := Real.sin θ
    let ct := Real.cos θ
    let lat := atan2 (z + ep2 * b * st * st * st) (p - e2 * a * ct * ct * ct)
    let sl := Real.sin lat
    let n := a / Real.sqrt (1 - e2 * sl * sl)
    let alt := p / Real.cos lat - n
    (lat * rad2deg, lon * rad2deg, alt)

/-! ## Per-epoch result storage (`estimate_receiver_positions`,
`receiver_position.c` lines 259-378) -/

/-- The output arrays `estimated_positions_ecef` and
`latlonalt_positions`, indexed by epoch index. -/
structure SolverState where
  ecef_x : ℕ → ℝ
  ecef_y : ℕ → ℝ
  ecef_z : ℕ → ℝ
  lat : ℕ → ℝ
  lon : ℕ → ℝ
  alt : ℕ → ℝ

/-- Zero-initialized globals (`= {0}` at lines 31-32). -/
def init_state : SolverState :=
  ⟨fun _ => 0, fun _ => 0, fun _ => 0, fun _ => 0, fun _ => 0, fun _ => 0⟩

/-- Pointwise array write. -/
def updFn (g : ℕ → ℝ) (i : ℕ) (v : ℝ) : ℕ → ℝ :=
  fun j => if j = i then v else g j

/-- Processing of one epoch (lines 290-377): epochs with fewer than 4
gathered satellites are skipped; a singular abort stores nothing; a
solved epoch stores the final ECEF estimate and, from
`ecef_to_geodetic`, the latitude and longitude — the computed `alt_m`
is dropped, mirroring lines 362-376 where `latlonalt_positions.alt` is
never assigned. -/
def store_epoch_result (st : SolverState) (ti : ℕ) (sats : List SatMeas) :
    SolverState :=
  if sats.length < 4 then st
  else
    match solve_epoch sats with
    | none => st
    | some (pos, _clk) =>
      let g := ecef_to_geodetic pos.1 pos.2.1 pos.2.2
      { ecef_x := updFn st.ecef_x ti pos.1
        ecef_y := updFn st.ecef_y ti pos.2.1
        ecef_z := updFn st.ecef_z ti pos.2.2
        lat := updFn st.lat ti g.1
        lon := updFn st.lon ti g.2.1
        alt := st.alt }

/-- Embedding of the epoch loop of `estimate_receiver_positions`: fold
the per-epoch store over the gathered epochs (epoch index paired with
its gathered satellite list), starting from the zero-initialized output
arrays. -/
def estimate_receiver_positions (epochs : List (ℕ × List SatMeas)) : SolverState :=
  epochs.foldl (fun st e => store_epoch_result st e.1 e.2) init_state

/-! ## Kepler solver (`satellite_position_eci.c` lines 114-124) -/

/-- The residual `f = E - e·sin(E) - M` computed each Kepler
iteration. -/
def kepler_f (e M E : ℝ) : ℝ :=
  E - e * Real.sin E - M

/-- The derivative `fp = 1 - e·cos(E)` computed each Kepler
iteration. -/
def kepler_fp (e E : ℝ) : ℝ :=
  1 - e * Real.cos E

/-- The Newton iteration of the Kepler solve: `dE = -f / fp`,
`E += dE`, breaking when `|dE| < 1e-12`, with the given remaining
iteration budget. -/
def kepler_iter (e M : ℝ) : ℕ → ℝ → ℝ
  | 0, E => E
  | n + 1, E =>
    let dE := -(kepler_f e M E) / kepler_fp e E
    if |dE| < 1e-12 then E + dE else kepler_iter e M n (E + dE)

/-- The eccentric anomaly computed inside `satellite_position_eci`:
start from `E = M` and run at most 10 Newton iterations. -/
def satellite_position_eci_keplerE (e M : ℝ) : ℝ :=
  kepler_iter e M 10 M

end

/-! ## Theorems -/

/-- C9 counterexample: at DF397 = 77 ms, DF398 = 0.000654, DF400 =
3.1e-7 the code returns exactly 23,084,019.26665431 m, which is almost
1000 m away from the claimed "approximately 23,083,019.4 m". -/
theorem compute_pseudorange_s2_counterexample :
    compute_pseudorange 77 0.000654 3.1e-7 = 2308401926665431 / 100000000 ∧
    ¬ |compute_pseudorange 77 0.000654 3.1e-7 - 23083019.4| ≤ 1 := by
  constructor
  · norm_num [compute_pseudorange, SPEED_OF_LIGHT]
  · norm_num [compute_pseudorange, SPEED_OF_LIGHT]
    rw [abs_of_pos (by norm_num)]
    norm_num

/-- C9 amended: `compute_pseudorange` applied to DF397 = 77, DF398 =
0.000654 and DF400 = 3.1e-7 returns the full pseudorange
`c·(77·1e-3) + 0.000654 + 3.1e-7`, which is approximately
23,084,019.2667 m (not 23,083,019.4 m). -/
theorem compute_pseudorange_s2_amended :
    compute_pseudorange 77 0.000654 3.1e-7 =
      SPEED_OF_LIGHT * (77 * (1 / 1000)) + 0.000654 + 3.1e-7 ∧
    |compute_pseudorange 77 0.000654 3.1e-7 - 23084019.2667| ≤ 0.001 := by
  constructor
  · norm_num [compute_pseudorange]
  · norm_num [compute_pseudorange, SPEED_OF_LIGHT]
    rw [abs_of_pos (by norm_num)]
    norm_num

/-- C10: the per-satellite line-of-sight range used by the geometry
matrix is strictly positive — the guard replaces a non-positive (or, in
C, non-finite) norm by 1.0 — and in particular evaluates to 1 when the
assumed receiver position coincides exactly with the satellite
position, so the divisions `los / r` never divide by zero. -/
theorem assumed_range_never_zero (s p : Vec3) :
    0 < assumed_range s p ∧ assumed_range p p = 1 := by
  constructor
  · unfold assumed_range
    by_cases h : norm3 (s.1 - p.1, s.2.1 - p.2.1, s.2.2 - p.2.2) > 0
    · simp only [if_pos h]
      exact h
    · simp [h]
  · unfold assumed_range norm3
    norm_num

/-- Helper: one Gauss-Newton step whose normal-equation solve is
singular aborts the whole iteration with `none`. -/
theorem lsq_iterate_none_step (sats : List SatMeas) (n : ℕ) (pos : Vec3) (clock : ℝ)
    (h : pinv_normal_eq_apply (sats.map (fun s => geometry_row s.ecef pos))
      (sats.map (delta_tau_of pos clock)) = none) :
    lsq_iterate sats (n + 1) (pos, clock) = none := by
  simp [lsq_iterate, h]

/-- C2: whenever the per-epoch least-squares solve aborts as singular
(the Gauss-Jordan pivot check in `invert_4x4` returned failure at some
iteration, which is the unique source of `none` in `solve_epoch`), the
epoch stores nothing: every output array — receiver ECEF and geodetic —
is left exactly as it was. -/
theorem singular_epoch_not_stored (st : SolverState) (ti : ℕ) (sats : List SatMeas)
    (h : solve_epoch sats = none) :
    store_epoch_result st ti sats = st := by
  unfold store_epoch_result
  by_cases hlen : sats.length < 4
  · simp [hlen]
  · simp [hlen, h]

/-- Helper: the degenerate epoch whose four satellites sit at the origin
produces the zero geometry rows `(0, 0, 0, 1)`. -/
theorem degenerate_rows :
    (List.replicate 4 (⟨(0, 0, 0), 1⟩ : SatMeas)).map
        (fun s => geometry_row s.ecef ((0 : ℝ), (0 : ℝ), (0 : ℝ))) =
      List.replicate 4 ((0 : ℝ), (0 : ℝ), (0 : ℝ), (1 : ℝ)) := by
  norm_num [geometry_row, assumed_range, norm3]

/-- Helper: the normal matrix of the degenerate epoch. -/
theorem degenerate_ata :
    buildATA (List.replicate 4 ((0 : ℝ), (0 : ℝ), (0 : ℝ), (1 : ℝ))) =
      [[0, 0, 0, 0], [0, 0, 0, 0], [0, 0, 0, 0], [0, 0, 0, 4]] := by
  norm_num [buildATA, rowComp, List.map_replicate, List.sum_replicate]

/-- Helper: that normal matrix is rejected by the pivot check. -/
theorem degenerate_invert_none :
    invert_4x4 [[0, 0, 0, 0], [0, 0, 0, 0], [0, 0, 0, 0], [(0 : ℝ), 0, 0, 4]] = none := by
  have haug : augmentRows [[0, 0, 0, 0], [0, 0, 0, 0], [0, 0, 0, 0], [(0 : ℝ), 0, 0, 4]] =
      [[0, 0, 0, 0, 1, 0, 0, 0], [0, 0, 0, 0, 0, 1, 0, 0],
       [0, 0, 0, 0, 0, 0, 1, 0], [0, 0, 0, 4, 0, 0, 0, 1]] := by
    norm_num [augmentRows, idRow4]
  have hpv : pivotSearch
      [[0, 0, 0, 0, 1, 0, 0, 0], [0, 0, 0, 0, 0, 1, 0, 0],
       [0, 0, 0, 0, 0, 0, 1, 0], [(0 : ℝ), 0, 0, 4, 0, 0, 0, 1]] 0 = (0, 0) := by
    norm_num [pivotSearch, matGet]
  rw [invert_4x4, haug, gjElim, hpv]
  norm_num

/-- C2 witness: a concrete 4-satellite epoch (all satellites at the
origin) whose first iteration meets the zero pivot, so the epoch writes
nothing over the initial state. -/
theorem singular_epoch_not_stored_witness :
    store_epoch_result init_state 0 (List.replicate 4 (⟨(0, 0, 0), 1⟩ : SatMeas)) =
      init_state := by
  refine singular_epoch_not_stored init_state 0 _ ?_
  have hnone : pinv_normal_eq_apply
      ((List.replicate 4 (⟨(0, 0, 0), 1⟩ : SatMeas)).map
        (fun s => geometry_row s.ecef ((0 : ℝ), (0 : ℝ), (0 : ℝ))))
      ((List.replicate 4 (⟨(0, 0, 0), 1⟩ : SatMeas)).map
        (delta_tau_of ((0 : ℝ), (0 : ℝ), (0 : ℝ)) 0)) = none := by
    rw [degenerate_rows, pinv_normal_eq_apply, degenerate_ata, degenerate_invert_none]
  have h10 : lsq_iterate (List.replicate 4 (⟨(0, 0, 0), 1⟩ : SatMeas)) (9 + 1)
      (((0 : ℝ), (0 : ℝ), (0 : ℝ)), (0 : ℝ)) = none :=
    lsq_iterate_none_step _ 9 _ _ hnone
  simpa [solve_epoch, ITERATIONS] using h10

/-- Helper: no branch of the per-epoch store touches the altitude
array. -/
theorem store_epoch_alt_eq (st : SolverState) (ti : ℕ) (sats : List SatMeas) :
    (store_epoch_result st ti sats).alt = st.alt := by
  unfold store_epoch_result
  by_cases hlen : sats.length < 4
  · simp [hlen]
  · cases hs : solve_epoch sats with
    | none => simp [hlen, hs]
    | some res => simp [hlen, hs]

/-- Helper: the epoch fold preserves the altitude array. -/
theorem estimate_fold_alt (l : List (ℕ × List SatMeas)) :
    ∀ st : SolverState,
      (l.foldl (fun st e => store_epoch_result st e.1 e.2) st).alt = st.alt := by
  induction l with
  | nil => intro st; rfl
  | cons e l ih =>
    intro st
    rw [List.foldl_cons, ih, store_epoch_alt_eq]

/-- C5: the geodetic output record never receives the altitude.
`estimate_receiver_positions` stores latitude and longitude of
`ecef_to_geodetic` for every solved epoch, but the computed `alt_m` is
dropped: the altitude array keeps its zero initialization at every
epoch index, for every input — contradicting the claim that all three
components are stored. -/
theorem latlonalt_alt_never_written :
    (∀ (st : SolverState) (ti : ℕ) (sats : List SatMeas),
      (store_epoch_result st ti sats).alt = st.alt) ∧
    (∀ (epochs : List (ℕ × List SatMeas)) (ti : ℕ),
      (estimate_receiver_positions epochs).alt ti = 0) := by
  refine ⟨store_epoch_alt_eq, fun epochs ti => ?_⟩
  unfold estimate_receiver_positions
  rw [estimate_fold_alt]
  rfl

/-- Helper: once `observation_type` is fixed to a family, a successful
read keeps it unchanged. -/
theorem read_keeps_family (ms : List RtcmMsgKind) :
    ∀ ot : ℕ, ot = 1 ∨ ot = 4 → ∀ ot2 : ℕ,
      read_next_rtcm_message ms ot = some ot2 → ot2 = ot := by
  induction ms with
  | nil =>
    intro ot _ ot2 h
    exact (Option.some.inj h).symm
  | cons m rest ih =>
    intro ot hot ot2 h
    cases m with
    | msg1019 => exact ih ot hot ot2 (by simpa [read_next_rtcm_message, observation_type_step] using h)
    | unsupported => exact ih ot hot ot2 (by simpa [read_next_rtcm_message, observation_type_step] using h)
    | msg1002 =>
      rcases hot with h1 | h4
      · subst h1
        have h' : read_next_rtcm_message rest 1 = some ot2 := by
          simpa [read_next_rtcm_message, observation_type_step] using h
        exact ih 1 (Or.inl rfl) ot2 h'
      · subst h4
        simp [read_next_rtcm_message, observation_type_step] at h
    | msg1074 =>
      rcases hot with h1 | h4
      · subst h1
        simp [read_next_rtcm_message, observation_type_step] at h
      · subst h4
        have h' : read_next_rtcm_message rest 4 = some ot2 := by
          simpa [read_next_rtcm_message, observation_type_step] using h
        exact ih 4 (Or.inr rfl) ot2 h'

/-- C4: a stream that decodes successfully (no mixed-stream error) and
contains at least one observation message (1002 or 1074) ends with
`observation_type` equal to 1 or 4, so the series builder's dispatch
(`satellites.c` lines 204-209) accepts it and the unsupported branch is
unreachable. -/
theorem observation_type_in_family (ms : List RtcmMsgKind) (ot2 : ℕ)
    (hread : read_next_rtcm_message ms 0 = some ot2)
    (hobs : ∃ m ∈ ms, isObsMsg m = true) :
    (ot2 = 1 ∨ ot2 = 4) ∧ sort_satellites_accepts ot2 = true := by
  have main : ot2 = 1 ∨ ot2 = 4 := by
    induction ms with
    | nil =>
      rcases hobs with ⟨m, hm, _⟩
      exact absurd hm (List.not_mem_nil m)
    | cons m rest ih =>
      cases m with
      | msg1002 =>
        have h' : read_next_rtcm_message rest 1 = some ot2 := by
          simpa [read_next_rtcm_message, observation_type_step] using hread
        exact Or.inl (read_keeps_family rest 1 (Or.inl rfl) ot2 h')
      | msg1074 =>
        have h' : read_next_rtcm_message rest 4 = some ot2 := by
          simpa [read_next_rtcm_message, observation_type_step] using hread
        exact Or.inr (read_keeps_family rest 4 (Or.inr rfl) ot2 h')
      | msg1019 =>
        have h' : read_next_rtcm_message rest 0 = some ot2 := by
          simpa [read_next_rtcm_message, observation_type_step] using hread
        rcases hobs with ⟨m', hm', hobs'⟩
        rcases List.mem_cons.mp hm' with rfl | hrest
        · exact absurd hobs' (by simp [isObsMsg])
        · exact ih h' ⟨m', hrest, hobs'⟩
      | unsupported =>
        have h' : read_next_rtcm_message rest 0 = some ot2 := by
          simpa [read_next_rtcm_message, observation_type_step] using hread
        rcases hobs with ⟨m', hm', hobs'⟩
        rcases List.mem_cons.mp hm' with rfl | hrest
        · exact absurd hobs' (by simp [isObsMsg])
        · exact ih h' ⟨m', hrest, hobs'⟩
  refine ⟨main, ?_⟩
  rcases main with rfl | rfl <;> rfl

/-- C4 witness: an ephemeris message followed by two MSM4 messages
decodes to `observation_type = 4`, which the series builder accepts. -/
theorem observation_type_in_family_witness :
    ((4 : ℕ) = 1 ∨ (4 : ℕ) = 4) ∧ sort_satellites_accepts 4 = true :=
  observation_type_in_family
    [RtcmMsgKind.msg1019, RtcmMsgKind.msg1074, RtcmMsgKind.msg1074] 4
    (by decide) ⟨RtcmMsgKind.msg1074, by decide, by decide⟩

/-- Helper: full characterization of the `find_closest_eph_idx` scan
from an arbitrary loop state.  With a running best TOE at most `t`, the
final best TOE stays at most `t`, never decreases, dominates every
eligible entry of the scanned suffix, and either the state is unchanged
(then every eligible entry of the suffix is strictly below the incoming
best TOE) or the final index points at an entry of the suffix whose TOE
is the final best and after which every eligible entry is strictly
smaller. -/
theorem find_closest_loop_spec (t : ℕ) :
    ∀ (l : List Eph) (i0 : ℕ) (bIdx : Option ℕ) (bToe : ℕ), bToe ≤ t →
      (find_closest_loop t l i0 bIdx bToe).2 ≤ t ∧
      bToe ≤ (find_closest_loop t l i0 bIdx bToe).2 ∧
      (∀ j : Fin l.length, (l.get j).gps_toe ≤ t →
        (l.get j).gps_toe ≤ (find_closest_loop t l i0 bIdx bToe).2) ∧
      (((find_closest_loop t l i0 bIdx bToe).1 = bIdx ∧
        (find_closest_loop t l i0 bIdx bToe).2 = bToe ∧
        ∀ j : Fin l.length, (l.get j).gps_toe ≤ t → (l.get j).gps_toe < bToe) ∨
       (∃ j : Fin l.length,
        (find_closest_loop t l i0 bIdx bToe).1 = some (i0 + j.1) ∧
        (find_closest_loop t l i0 bIdx bToe).2 = (l.get j).gps_toe ∧
        ∀ j2 : Fin l.length, j.1 < j2.1 → (l.get j2).gps_toe ≤ t →
          (l.get j2).gps_toe < (l.get j).gps_toe)) := by
  intro l
  induction l with
  | nil =>
    intro i0 bIdx bToe hbt
    refine ⟨hbt, le_refl _, ?_, Or.inl ⟨rfl, rfl, ?_⟩⟩
    · intro j; exact absurd j.2 (by simp)
    · intro j; exact absurd j.2 (by simp)
  | cons e rest ih =>
    intro i0 bIdx bToe hbt
    by_cases hc : e.gps_toe ≤ t ∧ bToe ≤ e.gps_toe
    · have hred : find_closest_loop t (e :: rest) i0 bIdx bToe =
          find_closest_loop t rest (i0 + 1) (some i0) e.gps_toe := by
        simp [find_closest_loop, hc.1, hc.2]
      obtain ⟨A1, A2, A3, A4⟩ := ih (i0 + 1) (some i0) e.gps_toe hc.1
      rw [hred]
      refine ⟨A1, le_trans hc.2 A2, ?_, ?_⟩
      · rintro ⟨jv, hjlt⟩ hjt
        cases jv with
        | zero => exact A2
        | succ jv2 => exact A3 ⟨jv2, Nat.lt_of_succ_lt_succ hjlt⟩ hjt
      · rcases A4 with ⟨hL1, hL2, hL3⟩ | ⟨⟨k, hk⟩, hB1, hB2, hB3⟩
        · refine Or.inr ⟨⟨0, Nat.succ_pos _⟩, ?_, hL2, ?_⟩
          · rw [Nat.add_zero]; exact hL1
          · rintro ⟨j2v, hj2lt⟩ h0j2 hj2t
            cases j2v with
            | zero => exact absurd h0j2 (lt_irrefl 0)
            | succ j2 => exact hL3 ⟨j2, Nat.lt_of_succ_lt_succ hj2lt⟩ hj2t
        · refine Or.inr ⟨⟨k + 1, Nat.succ_lt_succ hk⟩, ?_, hB2, ?_⟩
          · rw [hB1]
            congr 1
            show i0 + 1 + k = i0 + (k + 1)
            omega
          · rintro ⟨j2v, hj2lt⟩ hlt hj2t
            cases j2v with
            | zero => exact absurd hlt (Nat.not_lt_zero _)
            | succ j2 =>
              exact hB3 ⟨j2, Nat.lt_of_succ_lt_succ hj2lt⟩ (Nat.lt_of_succ_lt_succ hlt) hj2t
    · have hred : find_closest_loop t (e :: rest) i0 bIdx bToe =
          find_closest_loop t rest (i0 + 1) bIdx bToe := by
        simp only [find_closest_loop, if_neg hc]
      have hnc : e.gps_toe ≤ t → e.gps_toe < bToe := by
        intro h1
        by_contra h2
        push_neg at h2
        exact hc ⟨h1, h2⟩
      obtain ⟨A1, A2, A3, A4⟩ := ih (i0 + 1) bIdx bToe hbt
      rw [hred]
      refine ⟨A1, A2, ?_, ?_⟩
      · rintro ⟨jv, hjlt⟩ hjt
        cases jv with
        | zero => exact le_trans (le_of_lt (hnc hjt)) A2
        | succ jv2 => exact A3 ⟨jv2, Nat.lt_of_succ_lt_succ hjlt⟩ hjt
      · rcases A4 with ⟨hL1, hL2, hL3⟩ | ⟨⟨k, hk⟩, hB1, hB2, hB3⟩
        · refine Or.inl ⟨hL1, hL2, ?_⟩
          rintro ⟨jv, hjlt⟩ hjt
          cases jv with
          | zero => exact hnc hjt
          | succ jv2 => exact hL3 ⟨jv2, Nat.lt_of_succ_lt_succ hjlt⟩ hjt
        · refine Or.inr ⟨⟨k + 1, Nat.succ_lt_succ hk⟩, ?_, hB2, ?_⟩
          · rw [hB1]
            congr 1
            show i0 + 1 + k = i0 + (k + 1)
            omega
          · rintro ⟨j2v, hj2lt⟩ hlt hj2t
            cases j2v with
            | zero => exact absurd hlt (Nat.not_lt_zero _)
            | succ j2 =>
              exact hB3 ⟨j2, Nat.lt_of_succ_lt_succ hj2lt⟩ (Nat.lt_of_succ_lt_succ hlt) hj2t

/-- Helper: when `find_closest_eph_idx` returns an index, that index is
in range, its TOE is at most the raw query time, its TOE dominates every
eligible entry, and every strictly later eligible entry has a strictly
smaller TOE. -/
theorem find_closest_spec (hist : List Eph) (t i : ℕ)
    (h : find_closest_eph_idx hist t = some i) :
    ∃ hi : i < hist.length,
      (hist.get ⟨i, hi⟩).gps_toe ≤ t ∧
      (∀ j : Fin hist.length, (hist.get j).gps_toe ≤ t →
        (hist.get j).gps_toe ≤ (hist.get ⟨i, hi⟩).gps_toe) ∧
      (∀ j : Fin hist.length, i < j.1 → (hist.get j).gps_toe ≤ t →
        (hist.get j).gps_toe < (hist.get ⟨i, hi⟩).gps_toe) := by
  obtain ⟨A1, A2, A3, A4⟩ := find_closest_loop_spec t hist 0 none 0 (Nat.zero_le t)
  unfold find_closest_eph_idx at h
  rcases A4 with ⟨hL1, _, _⟩ | ⟨j, hB1, hB2, hB3⟩
  · rw [hL1] at h
    cases h
  · rw [hB1] at h
    have hij : i = j.1 := by
      have := Option.some.inj h
      omega
    subst hij
    refine ⟨j.2, ?_, ?_, ?_⟩
    · rw [← hB2]; exact A1
    · intro j2 hj2t
      have := A3 j2 hj2t
      rwa [hB2] at this
    · intro j2 hlt hj2t
      exact hB3 j2 hlt hj2t

/-- C1 counterexample: PRN 5 has a single ephemeris with TOE 200000 and
one observation at raw time 159000000 ms (= 159000 s of week).  After
`sort_satellites`, the series at position 0 has a positive pseudorange
and carries that ephemeris (TOE 200000), but 200000 is NOT ≤ the
observation time in seconds of week, and no history entry satisfies the
bound at all — the code compared the TOE against the raw millisecond
value, and the final ephemeris-series pass overwrote the columns with
the unique-by-TOE history. -/
theorem series_toe_counterexample :
    0 < (sort_satellites_final_entry [⟨3, 0, 0, 0, 0, 0, 200000⟩] 5
          [⟨[(5, 20000000)], 159000000⟩] 0).pseudorange ∧
    (sort_satellites_final_entry [⟨3, 0, 0, 0, 0, 0, 200000⟩] 5
        [⟨[(5, 20000000)], 159000000⟩] 0).times_of_ephemeris = 200000 ∧
    ¬ ((sort_satellites_final_entry [⟨3, 0, 0, 0, 0, 0, 200000⟩] 5
          [⟨[(5, 20000000)], 159000000⟩] 0).times_of_ephemeris ≤
        spec_t_obs_seconds
          ((sort_satellites_final_entry [⟨3, 0, 0, 0, 0, 0, 200000⟩] 5
            [⟨[(5, 20000000)], 159000000⟩] 0).time_of_pseudorange)) ∧
    ∀ e ∈ ([⟨3, 0, 0, 0, 0, 0, 200000⟩] : List Eph),
      ¬ (e.gps_toe ≤ spec_t_obs_seconds 159000000) := by
  decide

/-- C1 amended: during the per-observation pass of `sort_satellites`,
when the PRN appears in the record and an ephemeris qualifies, the
copied ephemeris has the greatest TOE that is at most the RAW stored
observation time (milliseconds of week, not normalized to seconds), and
the pseudorange and raw time are stored alongside.  (The final
ephemeris-series pass of `sort_satellites` subsequently overwrites the
element columns with the unique-by-TOE history, so this invariant holds
of the per-observation selection, not of the final series.) -/
theorem sort_entry_selects_latest_raw (hist : List Eph) (prn : ℕ) (rec : Msm4Rec)
    (pr : ℚ) (i : ℕ)
    (hpr : findPrn rec.sats prn = some pr)
    (hidx : find_closest_eph_idx hist rec.time_of_pseudorange = some i) :
    ∃ hi : i < hist.length,
      (sort_entry hist prn rec).times_of_ephemeris = (hist.get ⟨i, hi⟩).gps_toe ∧
      (sort_entry hist prn rec).pseudorange = pr ∧
      (sort_entry hist prn rec).time_of_pseudorange = rec.time_of_pseudorange ∧
      (hist.get ⟨i, hi⟩).gps_toe ≤ rec.time_of_pseudorange ∧
      ∀ j : Fin hist.length,
        (hist.get j).gps_toe ≤ rec.time_of_pseudorange →
        (hist.get j).gps_toe ≤ (hist.get ⟨i, hi⟩).gps_toe := by
  obtain ⟨hi, h1, h2, _⟩ := find_closest_spec hist rec.time_of_pseudorange i hidx
  have hentry : sort_entry hist prn rec =
      { pseudorange := pr
        time_of_pseudorange := rec.time_of_pseudorange
        eccentricity := (hist.getD i default).eccentricity
        inclination := (hist.getD i default).inclination
        mean_anomaly := (hist.getD i default).mean_anomaly
        semi_major_axis := (hist.getD i default).semi_major_axis
        right_ascension_of_ascending_node :=
          (hist.getD i default).right_ascension_of_ascending_node
        argument_of_periapsis := (hist.getD i default).argument_of_periapsis
        times_of_ephemeris := (hist.getD i default).gps_toe } := by
    unfold sort_entry
    rw [hpr, hidx]
  refine ⟨hi, ?_, ?_, ?_, h1, h2⟩
  · rw [hentry, List.getD_eq_getElem hist default hi]
    rfl
  · rw [hentry]
  · rw [hentry]

/-- C1 amended witness: two ephemerides with TOEs 100 and 150 and one
observation of PRN 7 at raw time 120; the selection picks index 0
(TOE 100), the greatest TOE at most 120. -/
theorem sort_entry_selects_latest_raw_witness :
    ∃ hi : 0 < ([⟨1, 0, 0, 0, 0, 0, 100⟩, ⟨2, 0, 0, 0, 0, 0, 150⟩] : List Eph).length,
      (sort_entry [⟨1, 0, 0, 0, 0, 0, 100⟩, ⟨2, 0, 0, 0, 0, 0, 150⟩] 7
        ⟨[(7, 5)], 120⟩).times_of_ephemeris =
        (([⟨1, 0, 0, 0, 0, 0, 100⟩, ⟨2, 0, 0, 0, 0, 0, 150⟩] : List Eph).get
          ⟨0, hi⟩).gps_toe ∧
      (sort_entry [⟨1, 0, 0, 0, 0, 0, 100⟩, ⟨2, 0, 0, 0, 0, 0, 150⟩] 7
        ⟨[(7, 5)], 120⟩).pseudorange = 5 ∧
      (sort_entry [⟨1, 0, 0, 0, 0, 0, 100⟩, ⟨2, 0, 0, 0, 0, 0, 150⟩] 7
        ⟨[(7, 5)], 120⟩).time_of_pseudorange =
        (⟨[(7, 5)], 120⟩ : Msm4Rec).time_of_pseudorange ∧
      (([⟨1, 0, 0, 0, 0, 0, 100⟩, ⟨2, 0, 0, 0, 0, 0, 150⟩] : List Eph).get
          ⟨0, hi⟩).gps_toe ≤ (⟨[(7, 5)], 120⟩ : Msm4Rec).time_of_pseudorange ∧
      ∀ j : Fin ([⟨1, 0, 0, 0, 0, 0, 100⟩, ⟨2, 0, 0, 0, 0, 0, 150⟩] : List Eph).length,
        (([⟨1, 0, 0, 0, 0, 0, 100⟩, ⟨2, 0, 0, 0, 0, 0, 150⟩] : List Eph).get j).gps_toe ≤
          (⟨[(7, 5)], 120⟩ : Msm4Rec).time_of_pseudorange →
        (([⟨1, 0, 0, 0, 0, 0, 100⟩, ⟨2, 0, 0, 0, 0, 0, 150⟩] : List Eph).get j).gps_toe ≤
          (([⟨1, 0, 0, 0, 0, 0, 100⟩, ⟨2, 0, 0, 0, 0, 0, 150⟩] : List Eph).get
            ⟨0, hi⟩).gps_toe :=
  sort_entry_selects_latest_raw
    [⟨1, 0, 0, 0, 0, 0, 100⟩, ⟨2, 0, 0, 0, 0, 0, 150⟩] 7 ⟨[(7, 5)], 120⟩ 5 0
    (by decide) (by decide)

/-- C6 counterexample: two ephemerides sharing TOE 100, both eligible at
observation time 200.  The selection returns index 1 — the last-arrived
one — not the first-arrived index 0; consequently the series entry is
not stable under swapping the two equal-TOE entries. -/
theorem find_closest_tie_counterexample :
    find_closest_eph_idx [⟨1, 0, 0, 0, 0, 0, 100⟩, ⟨2, 0, 0, 0, 0, 0, 100⟩] 200 = some 1 ∧
    find_closest_eph_idx [⟨1, 0, 0, 0, 0, 0, 100⟩, ⟨2, 0, 0, 0, 0, 0, 100⟩] 200 ≠ some 0 ∧
    sort_entry [⟨1, 0, 0, 0, 0, 0, 100⟩, ⟨2, 0, 0, 0, 0, 0, 100⟩] 5 ⟨[(5, 9)], 200⟩ ≠
      sort_entry [⟨2, 0, 0, 0, 0, 0, 100⟩, ⟨1, 0, 0, 0, 0, 0, 100⟩] 5 ⟨[(5, 9)], 200⟩ := by
  decide

/-- C6 amended: when two ephemerides in a PRN's history share the same
TOE and both satisfy `TOE ≤ t` under the raw comparison, the selection
picks the LAST-arrived one: the returned index is the greatest index
among the eligible entries attaining that TOE. -/
theorem find_closest_tie_last (hist : List Eph) (t i : ℕ)
    (h : find_closest_eph_idx hist t = some i) :
    ∃ hi : i < hist.length,
      (hist.get ⟨i, hi⟩).gps_toe ≤ t ∧
      ∀ j : Fin hist.length, (hist.get j).gps_toe ≤ t →
        (hist.get j).gps_toe = (hist.get ⟨i, hi⟩).gps_toe → j.1 ≤ i := by
  obtain ⟨hi, h1, _, h3⟩ := find_closest_spec hist t i h
  refine ⟨hi, h1, fun j hjt heq => ?_⟩
  by_contra hgt
  push_neg at hgt
  have := h3 j hgt hjt
  rw [heq] at this
  exact lt_irrefl _ this

/-- C6 amended witness: at the equal-TOE history the selection returns
index 1, whose TOE (100) is eligible at time 200, and every eligible
equal-TOE index is at most 1. -/
theorem find_closest_tie_last_witness :
    ∃ hi : 1 < ([⟨1, 0, 0, 0, 0, 0, 100⟩, ⟨2, 0, 0, 0, 0, 0, 100⟩] : List Eph).length,
      (([⟨1, 0, 0, 0, 0, 0, 100⟩, ⟨2, 0, 0, 0, 0, 0, 100⟩] : List Eph).get
        ⟨1, hi⟩).gps_toe ≤ 200 ∧
      ∀ j : Fin ([⟨1, 0, 0, 0, 0, 0, 100⟩, ⟨2, 0, 0, 0, 0, 0, 100⟩] : List Eph).length,
        (([⟨1, 0, 0, 0, 0, 0, 100⟩, ⟨2, 0, 0, 0, 0, 0, 100⟩] : List Eph).get j).gps_toe ≤
          200 →
        (([⟨1, 0, 0, 0, 0, 0, 100⟩, ⟨2, 0, 0, 0, 0, 0, 100⟩] : List Eph).get j).gps_toe =
          (([⟨1, 0, 0, 0, 0, 0, 100⟩, ⟨2, 0, 0, 0, 0, 0, 100⟩] : List Eph).get
            ⟨1, hi⟩).gps_toe → j.1 ≤ 1 :=
  find_closest_tie_last [⟨1, 0, 0, 0, 0, 0, 100⟩, ⟨2, 0, 0, 0, 0, 0, 100⟩] 200 1 (by decide)

/-- Helper: adjacent deduplication only drops elements. -/
theorem mem_dedupAdjAux_sub :
    ∀ (l : List ℕ) (p x : ℕ), x ∈ dedupAdjAux p l → x ∈ l := by
  intro l
  induction l with
  | nil => intro p x h; exact absurd h (List.not_mem_nil x)
  | cons t ts ih =>
    intro p x h
    by_cases hne : t ≠ p
    · rw [dedupAdjAux, if_pos hne] at h
      rcases List.mem_cons.mp h with rfl | h2
      · exact List.mem_cons_self _ _
      · exact List.mem_cons_of_mem t (ih t x h2)
    · rw [dedupAdjAux, if_neg hne] at h
      exact List.mem_cons_of_mem t (ih p x h)

/-- Helper: an element of the input is the running previous value or
survives adjacent deduplication. -/
theorem mem_dedupAdjAux_super :
    ∀ (l : List ℕ) (p x : ℕ), x ∈ l → x = p ∨ x ∈ dedupAdjAux p l := by
  intro l
  induction l with
  | nil => intro p x h; exact absurd h (List.not_mem_nil x)
  | cons t ts ih =>
    intro p x h
    by_cases hne : t ≠ p
    · rw [dedupAdjAux, if_pos hne]
      rcases List.mem_cons.mp h with rfl | h2
      · exact Or.inr (List.mem_cons_self x _)
      · rcases ih t x h2 with rfl | h3
        · exact Or.inr (List.mem_cons_self x _)
        · exact Or.inr (List.mem_cons_of_mem t h3)
    · rw [dedupAdjAux, if_neg hne]
      push_neg at hne
      rcases List.mem_cons.mp h with rfl | h2
      · exact Or.inl hne
      · exact ih p x h2

/-- Helper: adjacent deduplication preserves membership. -/
theorem mem_dedupAdj (l : List ℕ) (x : ℕ) : x ∈ dedupAdj l ↔ x ∈ l := by
  cases l with
  | nil => rfl
  | cons t ts =>
    rw [dedupAdj]
    constructor
    · intro h
      rcases List.mem_cons.mp h with rfl | h2
      · exact List.mem_cons_self x _
      · exact List.mem_cons_of_mem t (mem_dedupAdjAux_sub ts t x h2)
    · intro h
      rcases List.mem_cons.mp h with rfl | h2
      · exact List.mem_cons_self x _
      · rcases mem_dedupAdjAux_super ts t x h2 with rfl | h3
        · exact List.mem_cons_self x _
        · exact List.mem_cons_of_mem t h3

/-- Helper: adjacent deduplication of a `≤`-sorted tail below a bound
yields a strictly sorted list headed by the bound. -/
theorem sorted_dedupAdjAux :
    ∀ (l : List ℕ) (p : ℕ), l.Sorted (· ≤ ·) → (∀ x ∈ l, p ≤ x) →
      (p :: dedupAdjAux p l).Sorted (· < ·) := by
  intro l
  induction l with
  | nil => intro p _ _; simp [dedupAdjAux]
  | cons t ts ih =>
    intro p hs hge
    obtain ⟨hts, hsts⟩ := List.sorted_cons.mp hs
    have hpt : p ≤ t := hge t (List.mem_cons_self t ts)
    by_cases hne : t ≠ p
    · rw [dedupAdjAux, if_pos hne]
      have htail : (t :: dedupAdjAux t ts).Sorted (· < ·) := ih t hsts hts
      refine List.sorted_cons.mpr ⟨?_, htail⟩
      intro b hb
      have hplt : p < t := lt_of_le_of_ne hpt (Ne.symm hne)
      rcases List.mem_cons.mp hb with rfl | hb2
      · exact hplt
      · exact lt_of_lt_of_le hplt (hts b (mem_dedupAdjAux_sub ts t b hb2))
    · rw [dedupAdjAux, if_neg hne]
      push_neg at hne
      subst hne
      exact ih t hsts hts

/-- Helper: adjacent deduplication of a `≤`-sorted list is strictly
sorted (hence duplicate-free). -/
theorem sorted_dedupAdj (l : List ℕ) (h : l.Sorted (· ≤ ·)) :
    (dedupAdj l).Sorted (· < ·) := by
  cases l with
  | nil => simp [dedupAdj]
  | cons t ts =>
    rw [dedupAdj]
    exact sorted_dedupAdjAux ts t (List.sorted_cons.mp h).2 (List.sorted_cons.mp h).1

/-- Helper: once the accumulator is full, the row scan appends
nothing. -/
theorem collectRowAux_full (cap : ℕ) :
    ∀ (l acc : List ℕ), cap ≤ acc.length → collectRowAux cap l acc = acc := by
  intro l
  induction l with
  | nil => intro acc _; rfl
  | cons t ts ih =>
    intro acc hfull
    by_cases h0 : t = 0
    · rw [collectRowAux, if_pos h0]
      exact ih acc hfull
    · rw [collectRowAux, if_neg h0, if_pos hfull]

/-- Helper: while there is room for the whole row, the row scan appends
exactly its nonzero entries in order. -/
theorem collectRowAux_no_trunc (cap : ℕ) :
    ∀ (l acc : List ℕ),
      acc.length + (l.filter (fun t => t ≠ 0)).length ≤ cap →
      collectRowAux cap l acc = acc ++ l.filter (fun t => t ≠ 0) := by
  intro l
  induction l with
  | nil => intro acc _; simp [collectRowAux]
  | cons t ts ih =>
    intro acc hroom
    by_cases h0 : t = 0
    · rw [collectRowAux, if_pos h0]
      have hfeq : (t :: ts).filter (fun t => t ≠ 0) = ts.filter (fun t => t ≠ 0) := by
        simp [List.filter_cons, h0]
      rw [hfeq] at hroom ⊢
      exact ih acc hroom
    · have hfeq : (t :: ts).filter (fun t => t ≠ 0) = t :: ts.filter (fun t => t ≠ 0) := by
        simp [List.filter_cons, h0]
      rw [hfeq] at hroom ⊢
      have hnotfull : ¬ cap ≤ acc.length := by
        simp only [List.length_cons] at hroom
        omega
      rw [collectRowAux, if_neg h0, if_neg hnotfull]
      have hroom2 : (acc ++ [t]).length + (ts.filter (fun t => t ≠ 0)).length ≤ cap := by
        simp only [List.length_append, List.length_cons] at hroom ⊢
        simp only [List.length_nil]
        omega
      rw [ih (acc ++ [t]) hroom2, List.append_assoc]
      rfl

/-- Helper: while there is room for everything, the PRN-major gather
produces exactly the nonzero times in scan order. -/
theorem collectRawAux_no_trunc (cap : ℕ) :
    ∀ (ls : List (List ℕ)) (acc : List ℕ),
      acc.length + (ls.flatten.filter (fun t => t ≠ 0)).length ≤ cap →
      collectRawAux cap ls acc = acc ++ ls.flatten.filter (fun t => t ≠ 0) := by
  intro ls
  induction ls with
  | nil => intro acc _; simp [collectRawAux]
  | cons l ls ih =>
    intro acc hroom
    have hfeq : ((l :: ls).flatten).filter (fun t => t ≠ 0) =
        l.filter (fun t => t ≠ 0) ++ ls.flatten.filter (fun t => t ≠ 0) := by
      simp [List.flatten_cons, List.filter_append]
    rw [hfeq] at hroom
    simp only [List.length_append] at hroom
    rw [collectRawAux, collectRowAux_no_trunc cap l acc (by omega)]
    rw [ih (acc ++ l.filter (fun t => t ≠ 0)) (by simp only [List.length_append]; omega)]
    rw [List.append_assoc, hfeq]

/-- C3 amended: the epoch list built by `collect_unique_pr_times_ms` is
always sorted strictly ascending (hence duplicate-free), and whenever
the raw nonzero observation count is at most `MAX_UNIQUE_EPOCHS` it
equals `sorted(unique(nonzero times))` exactly.  (When the raw count
exceeds the cap, the truncation keeps the first `MAX_UNIQUE_EPOCHS`
nonzero times in PRN-major scan order — not the earliest ones; see the
counterexample.) -/
theorem collect_unique_sorted_and_exact (glist : List (List ℕ)) :
    (collect_unique_pr_times_ms glist).Sorted (· < ·) ∧
    ((glist.flatten.filter (fun t => t ≠ 0)).length ≤ MAX_UNIQUE_EPOCHS →
      collect_unique_pr_times_ms glist = claim_epoch_list glist) := by
  constructor
  · unfold collect_unique_pr_times_ms
    by_cases hraw : collectRawAux MAX_UNIQUE_EPOCHS glist [] = []
    · simp [hraw]
    · simp only [if_neg hraw]
      exact sorted_dedupAdj _ (List.sorted_insertionSort (· ≤ ·) _)
  · intro hlen
    have hraw : collectRawAux MAX_UNIQUE_EPOCHS glist [] =
        glist.flatten.filter (fun t => t ≠ 0) := by
      have := collectRawAux_no_trunc MAX_UNIQUE_EPOCHS glist [] (by simpa using hlen)
      simpa using this
    unfold collect_unique_pr_times_ms claim_epoch_list
    rw [hraw]
    by_cases hnil : glist.flatten.filter (fun t => t ≠ 0) = []
    · rw [if_pos hnil, hnil]
      rfl
    · rw [if_neg hnil]
      have hsortL : (dedupAdj (List.insertionSort (· ≤ ·)
          (glist.flatten.filter (fun t => t ≠ 0)))).Sorted (· < ·) :=
        sorted_dedupAdj _ (List.sorted_insertionSort (· ≤ ·) _)
      have hsortR : (List.insertionSort (· ≤ ·)
          ((glist.flatten.filter (fun t => t ≠ 0)).dedup)).Sorted (· ≤ ·) :=
        List.sorted_insertionSort (· ≤ ·) _
      have hndL : (dedupAdj (List.insertionSort (· ≤ ·)
          (glist.flatten.filter (fun t => t ≠ 0)))).Nodup := hsortL.nodup
      have hndR : (List.insertionSort (· ≤ ·)
          ((glist.flatten.filter (fun t => t ≠ 0)).dedup)).Nodup :=
        ((List.perm_insertionSort (· ≤ ·) _).nodup_iff).mpr
          (List.nodup_dedup _)
      have hmem : ∀ x,
          x ∈ dedupAdj (List.insertionSort (· ≤ ·)
            (glist.flatten.filter (fun t => t ≠ 0))) ↔
          x ∈ List.insertionSort (· ≤ ·)
            ((glist.flatten.filter (fun t => t ≠ 0)).dedup) := by
        intro x
        rw [mem_dedupAdj, List.mem_insertionSort, List.mem_insertionSort,
          List.mem_dedup]
      have hperm : List.Perm
          (dedupAdj (List.insertionSort (· ≤ ·)
            (glist.flatten.filter (fun t => t ≠ 0))))
          (List.insertionSort (· ≤ ·)
            ((glist.flatten.filter (fun t => t ≠ 0)).dedup)) := by
        refine List.perm_of_nodup_nodup_toFinset_eq hndL hndR ?_
        ext x
        simp only [List.mem_toFinset]
        exact hmem x
      exact List.eq_of_perm_of_sorted hperm (hsortL.imp le_of_lt) hsortR

/-- C3 amended witness: a small two-PRN table within the cap; the built
list is strictly sorted and equals the sorted unique nonzero times. -/
theorem collect_unique_sorted_and_exact_witness :
    (collect_unique_pr_times_ms [[159000000, 0, 159001000], [159000000]]).Sorted (· < ·) ∧
    collect_unique_pr_times_ms [[159000000, 0, 159001000], [159000000]] =
      claim_epoch_list [[159000000, 0, 159001000], [159000000]] :=
  ⟨(collect_unique_sorted_and_exact [[159000000, 0, 159001000], [159000000]]).1,
   (collect_unique_sorted_and_exact [[159000000, 0, 159001000], [159000000]]).2
     (by decide)⟩

/-- C3 counterexample: PRN 1 contributes exactly `MAX_UNIQUE_EPOCHS`
nonzero times 2..100001 and PRN 2 contributes the EARLIEST time 1.  The
gather hits the cap before reaching PRN 2, so the code's epoch list
omits epoch 1 although `sorted(unique(...))` with earliest-wins
truncation would retain it: the truncation is scan-order, not
earliest-wins. -/
theorem collect_truncation_counterexample :
    1 ∈ claim_epoch_list [List.Ico 2 100002, [1]] ∧
    1 ∉ collect_unique_pr_times_ms [List.Ico 2 100002, [1]] := by
  have hfilter : (List.Ico 2 100002).filter (fun t => t ≠ 0) = List.Ico 2 100002 := by
    rw [List.filter_eq_self]
    intro a ha
    have := (List.Ico.mem.mp ha).1
    simp only [ne_eq, decide_eq_true_eq]
    omega
  have hlen : (List.Ico 2 100002).length = 100000 := by
    rw [List.Ico.length]
  have hraw : collectRawAux MAX_UNIQUE_EPOCHS [List.Ico 2 100002, [1]] [] =
      List.Ico 2 100002 := by
    rw [collectRawAux, collectRowAux_no_trunc MAX_UNIQUE_EPOCHS (List.Ico 2 100002) []
      (by rw [List.length_nil, hfilter, hlen]; norm_num [MAX_UNIQUE_EPOCHS])]
    rw [List.nil_append, hfilter, collectRawAux]
    rw [collectRowAux, if_neg (by norm_num), if_pos (by rw [hlen]; rfl)]
    rfl
  constructor
  · unfold claim_epoch_list
    rw [List.mem_insertionSort, List.mem_dedup, List.mem_filter]
    constructor
    · simp [List.flatten_cons]
    · decide
  · intro hmem
    unfold collect_unique_pr_times_ms at hmem
    rw [hraw] at hmem
    have hne : List.Ico 2 100002 ≠ [] := by
      intro h
      rw [h] at hlen
      simp at hlen
    rw [if_neg hne] at hmem
    rw [mem_dedupAdj, List.mem_insertionSort] at hmem
    have := (List.Ico.mem.mp hmem).1
    omega

/-- C8: `ecef_to_geodetic` maps the equator point (6378137, 0, 0) to
exactly (0°, 0°, 0 m) — confirming the first half of the claim — but
maps the near-pole point (0, 0, 6356752.3142) to latitude 90°,
longitude 0°, and altitude `-(a / (1 - f))` ≈ -6,399,593.63 m, not
≈ 0 m: with `p = 0` and `lat = π/2`, Bowring's altitude
`p / cos(lat) - N` degenerates (`0 / 0 - N` under the real-number
convention, `0 / tiny - N` in C doubles; both give `-N`). -/
theorem ecef_to_geodetic_equator_and_pole :
    ecef_to_geodetic 6378137 0 0 = (0, 0, 0) ∧
    (ecef_to_geodetic 0 0 6356752.3142).1 = 90 ∧
    (ecef_to_geodetic 0 0 6356752.3142).2.1 = 0 ∧
    (ecef_to_geodetic 0 0 6356752.3142).2.2 = -(6378137 / (1 - 1 / 298.257223563)) ∧
    (ecef_to_geodetic 0 0 6356752.3142).2.2 < -6000000 := by
  have hcase1 : ecef_to_geodetic 6378137 0 0 = (0, 0, 0) := by
    have hs : Real.sqrt ((6378137 : ℝ) * 6378137 + 0 * 0) = 6378137 := by
      rw [mul_zero, add_zero]
      exact Real.sqrt_mul_self (by norm_num)
    unfold ecef_to_geodetic atan2
    rw [hs]
    norm_num [Real.sqrt_one]
  have hpole : (ecef_to_geodetic 0 0 6356752.3142).1 = 90 ∧
      (ecef_to_geodetic 0 0 6356752.3142).2.1 = 0 ∧
      (ecef_to_geodetic 0 0 6356752.3142).2.2 =
        -(6378137 / (1 - 1 / 298.257223563)) := by
    have hs0 : Real.sqrt ((0 : ℝ) * 0 + 0 * 0) = 0 := by norm_num
    unfold ecef_to_geodetic atan2
    rw [hs0]
    norm_num [Real.sin_pi_div_two, Real.cos_pi_div_two, Real.pi_ne_zero]
    rw [show (88361856960383362414969 : ℝ) = 297257223563 ^ 2 by norm_num,
      show (88957371407509362414969 : ℝ) = 298257223563 ^ 2 by norm_num,
      Real.sqrt_sq (by norm_num : (0 : ℝ) ≤ 297257223563),
      Real.sqrt_sq (by norm_num : (0 : ℝ) ≤ 298257223563)]
    norm_num
  refine ⟨hcase1, hpole.1, hpole.2.1, hpole.2.2, ?_⟩
  rw [hpole.2.2]
  norm_num

/-- Helper: the Newton denominator `1 - e·cos E` is strictly positive at
eccentricity 1/100. -/
theorem kepler_fp_pos (E : ℝ) : 0 < kepler_fp (1/100) E := by
  unfold kepler_fp
  nlinarith [Real.cos_le_one E, Real.neg_one_le_cos E]

/-- Helper: derivative of the Kepler residual. -/
theorem kepler_f_hasDeriv (E : ℝ) :
    HasDerivAt (kepler_f (1/100) (Real.pi/3)) (kepler_fp (1/100) E) E := by
  unfold kepler_f kepler_fp
  exact ((hasDerivAt_id E).sub ((Real.hasDerivAt_sin E).const_mul (1/100))).sub_const
    (Real.pi/3)

/-- Helper: the Kepler residual is continuous. -/
theorem kepler_f_continuous : Continuous (kepler_f (1/100) (Real.pi/3)) := by
  unfold kepler_f
  continuity

/-- Helper: mean value theorem for the Kepler residual. -/
theorem kepler_f_slope {a b : ℝ} (hab : a < b) :
    ∃ ξ ∈ Set.Ioo a b,
      kepler_f (1/100) (Real.pi/3) b - kepler_f (1/100) (Real.pi/3) a =
        kepler_fp (1/100) ξ * (b - a) := by
  obtain ⟨c, hc, heq⟩ := exists_hasDerivAt_eq_slope (kepler_f (1/100) (Real.pi/3))
    (kepler_fp (1/100)) hab kepler_f_continuous.continuousOn
    (fun x _ => kepler_f_hasDeriv x)
  refine ⟨c, hc, ?_⟩
  rw [heq, div_mul_cancel₀]
  exact sub_ne_zero.mpr (ne_of_gt hab)

/-- Helper: mean value theorem for the sine. -/
theorem sin_slope {a b : ℝ} (hab : a < b) :
    ∃ ξ ∈ Set.Ioo a b, Real.sin b - Real.sin a = Real.cos ξ * (b - a) := by
  obtain ⟨c, hc, heq⟩ := exists_hasDerivAt_eq_slope Real.sin Real.cos hab
    Real.continuous_sin.continuousOn (fun x _ => Real.hasDerivAt_sin x)
  refine ⟨c, hc, ?_⟩
  rw [heq, div_mul_cancel₀]
  exact sub_ne_zero.mpr (ne_of_gt hab)

/-- Helper: the Kepler residual is strictly increasing. -/
theorem kepler_f_mono {a b : ℝ} (hab : a < b) :
    kepler_f (1/100) (Real.pi/3) a < kepler_f (1/100) (Real.pi/3) b := by
  obtain ⟨ξ, _, heq⟩ := kepler_f_slope hab
  nlinarith [kepler_fp_pos ξ]

/-- Helper: one Newton step from a state above the Kepler root (residual
nonnegative) and below 1.056 stays above the root and below 1.056: the
step is nonpositive, and by the mean value theorem with `cos` strictly
decreasing on `[0, π]` the new residual stays nonnegative. -/
theorem kepler_step_invariant (E : ℝ)
    (h1 : 0 ≤ kepler_f (1/100) (Real.pi/3) E) (h2 : E ≤ 1.056) :
    0 ≤ kepler_f (1/100) (Real.pi/3)
        (E + -(kepler_f (1/100) (Real.pi/3) E) / kepler_fp (1/100) E) ∧
    E + -(kepler_f (1/100) (Real.pi/3) E) / kepler_fp (1/100) E ≤ 1.056 := by
  set F := kepler_f (1/100) (Real.pi/3) E with hF
  set G := kepler_fp (1/100) E with hG
  have hFdef : F = E - 1/100 * Real.sin E - Real.pi/3 := by rw [hF]; rfl
  have hGdef : G = 1 - 1/100 * Real.cos E := by rw [hG]; rfl
  have hGpos : 0 < G := kepler_fp_pos E
  have hstep_nonpos : -F / G ≤ 0 :=
    div_nonpos_of_nonpos_of_nonneg (by linarith) (le_of_lt hGpos)
  refine ⟨?_, by linarith⟩
  rcases eq_or_lt_of_le h1 with heq | hFpos
  · have hz : -F / G = 0 := by rw [← heq]; simp
    rw [hz, add_zero]
    exact h1
  · have hpi := Real.pi_gt_d6
    have hpi2 := Real.pi_lt_d6
    have hsinE := Real.neg_one_le_sin E
    have hcosE := Real.cos_le_one E
    have hElow : (1.03 : ℝ) ≤ E := by
      rw [hFdef] at h1
      nlinarith
    have hFup : F ≤ 0.019 := by
      rw [hFdef]
      nlinarith
    have hGlow : (99/100 : ℝ) ≤ G := by
      rw [hGdef]
      linarith
    have hquot : F / G ≤ 0.02 := by
      rw [div_le_iff₀ hGpos]
      nlinarith
    have hquot0 : 0 ≤ F / G := div_nonneg h1 (le_of_lt hGpos)
    have hE2lt : E + -F / G < E := by
      have hd : -F / G = -(F / G) := neg_div G F
      have : 0 < F / G := div_pos hFpos hGpos
      rw [hd]
      linarith
    have hE2low : (1.0 : ℝ) ≤ E + -F / G := by
      have hd : -F / G = -(F / G) := neg_div G F
      rw [hd]
      linarith
    obtain ⟨ξ, hmem, hslope⟩ := kepler_f_slope hE2lt
    have hξ1 : E + -F / G < ξ := hmem.1
    have hξ2 : ξ < E := hmem.2
    have hcos : Real.cos E < Real.cos ξ := by
      apply Real.strictAntiOn_cos ⟨by linarith, by linarith⟩ ⟨by linarith, by linarith⟩ hξ2
    have hfpd : kepler_fp (1/100) ξ = 1 - 1/100 * Real.cos ξ := rfl
    have hfppos : 0 < kepler_fp (1/100) ξ := kepler_fp_pos ξ
    have hfplt : kepler_fp (1/100) ξ < G := by
      rw [hfpd, hGdef]
      linarith
    have hdiff : E - (E + -F / G) = F / G := by ring
    have hfE2 : kepler_f (1/100) (Real.pi/3) (E + -F / G) =
        F - kepler_fp (1/100) ξ * (F / G) := by
      have hs := hslope
      rw [hdiff, ← hF] at hs
      linarith
    rw [hfE2]
    have hGFG : G * (F / G) = F := by field_simp
    nlinarith [mul_le_mul_of_nonneg_right (le_of_lt hfplt) hquot0]

/-- Helper: the Newton iteration preserves the above-root invariant
through any number of remaining iterations, including the early-break
branch. -/
theorem kepler_iter_invariant : ∀ (n : ℕ) (E : ℝ),
    0 ≤ kepler_f (1/100) (Real.pi/3) E → E ≤ 1.056 →
    0 ≤ kepler_f (1/100) (Real.pi/3) (kepler_iter (1/100) (Real.pi/3) n E) ∧
      kepler_iter (1/100) (Real.pi/3) n E ≤ 1.056 := by
  intro n
  induction n with
  | zero => intro E h1 h2; exact ⟨h1, h2⟩
  | succ n ih =>
    intro E h1 h2
    rw [kepler_iter]
    obtain ⟨j1, j2⟩ := kepler_step_invariant E h1 h2
    by_cases hb : |(-(kepler_f (1/100) (Real.pi/3) E) / kepler_fp (1/100) E)| < 1e-12
    · simp only [hb, if_pos]
      exact ⟨j1, j2⟩
    · simp only [hb, if_neg, not_false_iff]
      exact ih _ j1 j2

/-- Helper: a rational lower bound for the square root of 3. -/
theorem sqrt3_lb : (1.7320508 : ℝ) ≤ Real.sqrt 3 := by
  rw [Real.le_sqrt' (by norm_num)]
  norm_num

/-- Helper: a rational upper bound for the square root of 3. -/
theorem sqrt3_ub : Real.sqrt 3 ≤ 1.7320509 := by
  rw [show (1.7320509 : ℝ) = Real.sqrt (1.7320509 ^ 2) from
    (Real.sqrt_sq (by norm_num)).symm]
  exact Real.sqrt_le_sqrt (by norm_num)

/-- Helper: the first Newton step from `E = M = π/3` computes exactly
`E₁ = π/3 + √3/199` and does not trigger the early break. -/
theorem kepler_first_step :
    satellite_position_eci_keplerE (1/100) (Real.pi/3) =
      kepler_iter (1/100) (Real.pi/3) 9 (Real.pi/3 + Real.sqrt 3 / 199) := by
  have hdE : -(kepler_f (1/100) (Real.pi/3) (Real.pi/3)) / kepler_fp (1/100) (Real.pi/3) =
      Real.sqrt 3 / 199 := by
    unfold kepler_f kepler_fp
    rw [Real.sin_pi_div_three, Real.cos_pi_div_three]
    ring_nf
  have hnotlt : ¬ |Real.sqrt 3 / 199| < 1e-12 := by
    rw [abs_of_nonneg (by positivity)]
    intro hlt
    nlinarith [sqrt3_lb]
  show kepler_iter (1/100) (Real.pi/3) (9 + 1) (Real.pi/3) = _
  rw [kepler_iter]
  simp only [hdE, hnotlt, if_neg, not_false_iff]

/-- Helper: `E₁ = π/3 + √3/199` satisfies the above-root invariant: its
residual is nonnegative (by the sine mean value theorem, since
`sin E₁ ≤ √3/2 + (1/2)·√3/199`) and it is at most 1.056. -/
theorem kepler_E1_invariant :
    0 ≤ kepler_f (1/100) (Real.pi/3) (Real.pi/3 + Real.sqrt 3 / 199) ∧
    Real.pi/3 + Real.sqrt 3 / 199 ≤ 1.056 := by
  have hpi := Real.pi_gt_d6
  have hpi2 := Real.pi_lt_d6
  have hs3l := sqrt3_lb
  have hs3u := sqrt3_ub
  have hE1ub : Real.pi/3 + Real.sqrt 3 / 199 ≤ 1.056 := by linarith
  refine ⟨?_, hE1ub⟩
  have hlt : Real.pi/3 < Real.pi/3 + Real.sqrt 3 / 199 := by
    have h0 : 0 < Real.sqrt 3 / 199 := by positivity
    linarith
  obtain ⟨ξ, hmem, hslope⟩ := sin_slope hlt
  have hd : Real.pi/3 + Real.sqrt 3 / 199 - Real.pi/3 = Real.sqrt 3 / 199 := by ring
  rw [hd] at hslope
  have hξl : Real.pi/3 < ξ := hmem.1
  have hξu : ξ < Real.pi/3 + Real.sqrt 3 / 199 := hmem.2
  have hcos : Real.cos ξ < Real.cos (Real.pi/3) := by
    apply Real.strictAntiOn_cos ⟨by linarith, by linarith⟩ ⟨by linarith, by linarith⟩ hξl
  rw [Real.cos_pi_div_three] at hcos
  have hsinE1 : Real.sin (Real.pi/3 + Real.sqrt 3 / 199) =
      Real.sqrt 3 / 2 + Real.cos ξ * (Real.sqrt 3 / 199) := by
    rw [← Real.sin_pi_div_three]
    linarith
  unfold kepler_f
  rw [hsinE1]
  nlinarith [mul_le_mul_of_nonneg_right (le_of_lt hcos)
    (by positivity : (0 : ℝ) ≤ Real.sqrt 3 / 199)]

/-- Helper: the Kepler solver's result at `e = 1/100`, `M = π/3` lies in
the bracket (1.0553, 1.056]: every iterate after the first step stays
above the true root and at most 1.056, and the residual at 1.0553 is
strictly negative while residuals of iterates are nonnegative. -/
theorem kepler_result_bounds :
    1.0553 < satellite_position_eci_keplerE (1/100) (Real.pi/3) ∧
    satellite_position_eci_keplerE (1/100) (Real.pi/3) ≤ 1.056 := by
  have hE1 := kepler_E1_invariant
  have hinv := kepler_iter_invariant 9 _ hE1.1 hE1.2
  rw [kepler_first_step]
  refine ⟨?_, hinv.2⟩
  have hfneg : kepler_f (1/100) (Real.pi/3) 1.0553 < 0 := by
    have hpi := Real.pi_gt_d6
    have hpi2 := Real.pi_lt_d6
    have hsin : Real.sin (Real.pi/3) < Real.sin 1.0553 := by
      apply Real.strictMonoOn_sin ⟨by linarith, by linarith⟩ ⟨by linarith, by linarith⟩
        (by linarith)
    rw [Real.sin_pi_div_three] at hsin
    unfold kepler_f
    nlinarith [sqrt3_lb]
  by_contra hle
  push_neg at hle
  rcases eq_or_lt_of_le hle with heq | hlt
  · rw [heq] at hinv
    linarith [hinv.1]
  · have := kepler_f_mono hlt
    linarith [hinv.1]

/-- C7 counterexample: the Kepler solver at `e = 0.01`, `M = π/3` does
NOT return a value within 1e-9 of 1.055222 — its result exceeds 1.0553
(the true root of `E - 0.01·sin E = π/3` is ≈ 1.0559010). -/
theorem kepler_s6_counterexample :
    ¬ |satellite_position_eci_keplerE (1/100) (Real.pi/3) - 1.055222| ≤ 1e-9 := by
  intro habs
  rw [abs_le] at habs
  have h := kepler_result_bounds.1
  have h2 := habs.2
  nlinarith

/-- C7 amended: the Kepler solver at `e = 0.01`, `M = π/3` returns a
value in the interval (1.0553, 1.056], within 6e-4 of 1.0559 — the true
root is ≈ 1.0559010 rad, not the claimed 1.055222. -/
theorem kepler_s6_amended :
    1.0553 < satellite_position_eci_keplerE (1/100) (Real.pi/3) ∧
    satellite_position_eci_keplerE (1/100) (Real.pi/3) ≤ 1.056 ∧
    |satellite_position_eci_keplerE (1/100) (Real.pi/3) - 1.0559| ≤ 0.0006 := by
  obtain ⟨h1, h2⟩ := kepler_result_bounds
  refine ⟨h1, h2, ?_⟩
  rw [abs_le]
  constructor <;> linarith

end L1Pos
